import Mathlib

/-!
Shallow embedding of the race-timing core of the ragde-challenge-timekeeper
repository, together with proofs checking the natural-language specification
against it.

Modelling conventions:
* JavaScript strings are lists of characters (`JStr`).
* JavaScript numbers are exact rationals (`ℚ`); IEEE-754 rounding is out of
  scope, and none of the verified properties depend on it.  `Date.now()`
  readings and ISO-8601 timestamps are both modelled by the clock value (a
  rational) they encode.
* JavaScript truthiness is modelled explicitly: a number is truthy iff it is
  nonzero, a string iff it is nonempty, `undefined`/`null` are `Option.none`.
* The Firestore collections are modelled as the lists of documents a
  subscribed client observes; `setDoc`/`deleteDoc` become the corresponding
  pure updates of those lists.
-/

namespace Ragde

/-! ## JavaScript string primitives -/

/-- A JavaScript string, modelled as its list of characters. -/
abbrev JStr := List Char

/-- The whitespace characters relevant to `String.prototype.trim` for the
inputs this application handles. -/
def isWSChar (c : Char) : Bool :=
  c = ' ' || c = '\t' || c = '\n' || c = '\r'

/-- `String.prototype.trim`: drop leading and trailing whitespace. -/
def trimJS (s : JStr) : JStr :=
  ((s.dropWhile isWSChar).reverse.dropWhile isWSChar).reverse

/-- `String.prototype.split(':')`. -/
def splitCols : JStr → List JStr
  | [] => [[]]
  | c :: cs =>
    if c = ':' then [] :: splitCols cs
    else
      match splitCols cs with
      | [] => [[c]]
      | p :: ps => (c :: p) :: ps

/-- Longest leading run of decimal digits, together with the rest. -/
def takeDigits : JStr → JStr × JStr
  | [] => ([], [])
  | c :: cs =>
    if c.isDigit then
      let r := takeDigits cs
      (c :: r.1, r.2)
    else ([], c :: cs)

/-- Numeric value of a string of decimal digits (most significant first). -/
def digitsVal (ds : JStr) : ℕ :=
  ds.foldl (fun a c => 10 * a + (c.toNat - 48)) 0

/-- `parseInt(s, 10)`: skip whitespace, optional sign, then the longest digit
run; `NaN` (here `none`) when no digit follows the sign. -/
def parseIntJS (s : JStr) : Option ℤ :=
  let t := s.dropWhile isWSChar
  let signed : ℤ × JStr :=
    match t with
    | [] => (1, [])
    | c :: r => if c = '-' then (-1, r) else if c = '+' then (1, r) else (1, t)
  let ds := (takeDigits signed.2).1
  if ds.isEmpty then none else some (signed.1 * (digitsVal ds : ℤ))

/-- `parseFloat(s)` on decimal literals: skip whitespace, optional sign,
digits, optional fraction; `NaN` (here `none`) when neither integer nor
fraction digits are present.  Exponent and `Infinity` forms, which no code
path of this application produces, are not modelled. -/
def parseFloatJS (s : JStr) : Option ℚ :=
  let t := s.dropWhile isWSChar
  let signed : ℚ × JStr :=
    match t with
    | [] => (1, [])
    | c :: r => if c = '-' then (-1, r) else if c = '+' then (1, r) else (1, t)
  let ip := takeDigits signed.2
  let fp : JStr :=
    match ip.2 with
    | c :: r => if c = '.' then (takeDigits r).1 else []
    | [] => []
  if ip.1.isEmpty && fp.isEmpty then none
  else some (signed.1 * ((digitsVal ip.1 : ℚ) + (digitsVal fp : ℚ) / (10 : ℚ) ^ fp.length))

/-! ## Time formatting and parsing (EstimateInput.tsx) -/

/-- The character of a decimal digit. -/
def digitChar : ℕ → Char
  | 0 => '0' | 1 => '1' | 2 => '2' | 3 => '3' | 4 => '4'
  | 5 => '5' | 6 => '6' | 7 => '7' | 8 => '8' | _ => '9'

/-- Decimal representation of a natural number, as `Number.prototype.toString`
produces for the non-negative integers this code formats. -/
def natDigits (n : ℕ) : List Char :=
  if n < 10 then [digitChar n]
  else natDigits (n / 10) ++ [digitChar (n % 10)]
  termination_by n
  decreasing_by exact Nat.div_lt_self (by omega) (by omega)

/-- `padStart(2, '0')`. -/
def pad2 (s : JStr) : JStr :=
  List.replicate (2 - s.length) '0' ++ s

/-- `msToTimeString` (EstimateInput.tsx lines 13-23): format a millisecond
duration as `M:SS` or `H:MM:SS`.  `Math.floor` on the non-negative durations
the application feeds it is `Int.floor`; all component arithmetic then happens
on natural numbers. -/
def msToTimeString (ms : ℚ) : JStr :=
  let totalSeconds : ℕ := (⌊ms / 1000⌋).toNat
  let hours := totalSeconds / 3600
  let minutes := totalSeconds % 3600 / 60
  let seconds := totalSeconds % 60
  if hours > 0 then
    natDigits hours ++ ':' :: pad2 (natDigits minutes) ++ ':' :: pad2 (natDigits seconds)
  else
    natDigits minutes ++ ':' :: pad2 (natDigits seconds)

/-- `parseTimeToMs` (EstimateInput.tsx lines 26-52): parse `MM:SS` or
`HH:MM:SS` (fractional seconds allowed) to milliseconds; `null` (`none`) on an
empty string, a wrong shape, an unparsable component, or a negative
component. -/
def parseTimeToMs (s : JStr) : Option ℚ :=
  let trimmed := trimJS s
  if trimmed.isEmpty then none
  else
    match (splitCols trimmed).map trimJS with
    | [p0, p1] =>
      match parseIntJS p0, parseFloatJS p1 with
      | some minutes, some seconds =>
        if minutes < 0 ∨ seconds < 0 then none
        else some (((minutes : ℚ) * 60 + seconds) * 1000)
      | _, _ => none
    | [p0, p1, p2] =>
      match parseIntJS p0, parseIntJS p1, parseFloatJS p2 with
      | some hours, some minutes, some seconds =>
        if hours < 0 ∨ minutes < 0 ∨ seconds < 0 then none
        else some (((hours : ℚ) * 3600 + (minutes : ℚ) * 60 + seconds) * 1000)
      | _, _, _ => none
    | _ => none

/-! ## Data model -/

/-- The three disciplines, in race order. -/
inductive Discipline
  | treadmill
  | skiErg
  | rowing
deriving DecidableEq, Repr

/-- The DISCIPLINES array of RaceTimer. -/
def DISCIPLINES : List Discipline := [.treadmill, .skiErg, .rowing]

/-- A recorded split: segment duration for one discipline plus the wall-clock
instant it was recorded at. -/
structure Split where
  discipline : Discipline
  time : ℚ
  timestamp : ℚ
deriving DecidableEq, Repr

/-- A person document as seen through the persons cache (its `id` is the
Firestore document id). -/
structure Person where
  id : String
  name : String
  createdAt : String
  createdBy : Option String := none
deriving DecidableEq, Repr

/-- The partially-present estimated splits, with the derived total. -/
structure EstimatedSplits where
  treadmill : Option ℚ := none
  skiErg : Option ℚ := none
  rowing : Option ℚ := none
  total : Option ℚ := none
deriving DecidableEq, Repr

/-- An active-race document. -/
structure ActiveRace where
  id : String
  person : Person
  startTime : ℚ
  splits : List Split
  currentDisciplineIndex : ℕ
  estimatedSplits : Option EstimatedSplits := none
  createdBy : Option String := none
deriving DecidableEq, Repr

/-- A finalized race result document. -/
structure RaceResult where
  id : String
  personId : String
  personName : String
  splits : List Split
  totalTime : ℚ
  completedAt : ℚ
  createdBy : Option String := none
deriving DecidableEq, Repr

/-- JavaScript truthiness of an optional number: `0`, `NaN` and `undefined`
are falsy. -/
def truthyQ : Option ℚ → Bool
  | some q => q != 0
  | none => false

/-- JavaScript truthiness of an optional string: `""` and `undefined` are
falsy. -/
def truthyS : Option String → Bool
  | some s => s != ""
  | none => false

/-- The JavaScript `a || b` on optional strings. -/
def jsOrS (a b : Option String) : Option String :=
  if truthyS a then a else b

/-- The trailing `|| undefined` applied to an optional string. -/
def jsOrUndef (a : Option String) : Option String :=
  if truthyS a then a else none

/-- A signed-in Firebase user as the auth context exposes it. -/
structure AuthUser where
  email : Option String
  uid : String
deriving DecidableEq, Repr

/-- `user?.email || user?.uid`: the caller identity used for ownership. -/
def currentUserId (u : Option AuthUser) : Option String :=
  jsOrS (u.bind (·.email)) (u.map (·.uid))

/-! ## Estimate reconciler (EstimateInput.tsx and RaceTimer) -/

/-- `completedSplits.some(s => s.discipline === d)` (EstimateInput.tsx lines
75-77): whether a discipline already has a recorded split. -/
def disciplineDone (completedSplits : List Split) (d : Discipline) : Bool :=
  completedSplits.any (fun s => s.discipline == d)

/-- One field of `handleConfirm` (EstimateInput.tsx lines 79-132).  Returns
the field value of the `estimates` object being built and whether an entry was
added to `newErrors`.  A non-blank submission on a non-completed discipline is
parsed; the JavaScript `if (ms)` check makes a parse result of `0` land in the
error branch exactly like a failed parse.  A blank submission clears a truthy
stored estimate; otherwise the stored value is kept. -/
def confirmField (done : Bool) (txt : JStr) (existing : Option ℚ) : Option ℚ × Bool :=
  if !done && !(trimJS txt).isEmpty then
    match parseTimeToMs txt with
    | some ms => if ms ≠ 0 then (some ms, false) else (existing, true)
    | none => (existing, true)
  else if !done && (trimJS txt).isEmpty && truthyQ existing then (none, false)
  else (existing, false)

/-- `handleConfirm` (EstimateInput.tsx lines 79-132): build the new estimates
from the three submitted field texts; reject the whole edit (`none`) when any
field errored, otherwise recompute or drop `total` and confirm. -/
def handleConfirm (existing : EstimatedSplits) (tTxt sTxt rTxt : JStr)
    (completedSplits : List Split) : Option EstimatedSplits :=
  let t := confirmField (disciplineDone completedSplits .treadmill) tTxt existing.treadmill
  let s := confirmField (disciplineDone completedSplits .skiErg) sTxt existing.skiErg
  let r := confirmField (disciplineDone completedSplits .rowing) rTxt existing.rowing
  if t.2 || s.2 || r.2 then none
  else
    let base : EstimatedSplits :=
      { treadmill := t.1, skiErg := s.1, rowing := r.1, total := existing.total }
    if truthyQ t.1 && truthyQ s.1 && truthyQ r.1 then
      some { base with total := some (t.1.getD 0 + s.1.getD 0 + r.1.getD 0) }
    else if truthyQ existing.total then some { base with total := none }
    else some base

/-- The object-spread merge `{...estimatedSplits, ...newEstimates}`: a field of
the update wins when present, otherwise the stored field survives. -/
def mergeEstimates (old upd : EstimatedSplits) : EstimatedSplits :=
  { treadmill := upd.treadmill.orElse fun _ => old.treadmill
    skiErg := upd.skiErg.orElse fun _ => old.skiErg
    rowing := upd.rowing.orElse fun _ => old.rowing
    total := upd.total.orElse fun _ => old.total }

/-- `handleEstimateConfirm` (RaceTimer, part_006 lines 103-120): merge the
confirmed estimates into the stored ones and recompute `total` when all three
disciplines are truthy. -/
def handleEstimateConfirm (old upd : EstimatedSplits) : EstimatedSplits :=
  let m := mergeEstimates old upd
  if truthyQ m.treadmill && truthyQ m.skiErg && truthyQ m.rowing then
    { m with total := some (m.treadmill.getD 0 + m.skiErg.getD 0 + m.rowing.getD 0) }
  else m

/-! ## Race state machine (RaceTimer, part_006) -/

/-- The per-race mutable state of a RaceTimer instance. -/
structure RaceState where
  startTime : ℚ
  splits : List Split
  currentDisciplineIndex : ℕ
deriving DecidableEq, Repr

/-- `splits.reduce((sum, s) => sum + s.time, 0)`. -/
def sumSplitTimes (ss : List Split) : ℚ :=
  (ss.map Split.time).sum

/-- `handleSplit` (part_006 lines 76-101) up to the completion call: the new
split records the segment duration `(now − startTime) − sum(existing)` and the
discipline index advances by one.  When `currentDisciplineIndex` does not
index `DISCIPLINES`, the very first line throws (reading `.key` of
`undefined`) before any state is written; that is the `none` case. -/
def handleSplit (st : RaceState) (now : ℚ) : Option RaceState :=
  match DISCIPLINES[st.currentDisciplineIndex]? with
  | none => none
  | some d =>
    let splitTime := now - st.startTime - sumSplitTimes st.splits
    some { st with
      splits := st.splits ++ [{ discipline := d, time := splitTime, timestamp := now }]
      currentDisciplineIndex := st.currentDisciplineIndex + 1 }

/-- `handleComplete` (part_006 lines 181-199): the emitted result carries
`totalTime = Date.now() − startTime`, a clock reading taken inside
`handleComplete` itself, independently of the readings the splits were built
from. -/
def handleComplete (raceId : String) (p : Person) (raceCreatedBy : Option String)
    (u : Option AuthUser) (startTime : ℚ) (finalSplits : List Split) (now : ℚ) : RaceResult :=
  { id := raceId
    personId := p.id
    personName := p.name
    splits := finalSplits
    totalTime := now - startTime
    completedAt := now
    createdBy := jsOrUndef (jsOrS raceCreatedBy (currentUserId u)) }

/-- The full take-split flow: `handleSplit` reads the clock (`nowSplit`), and
when the new index reaches `DISCIPLINES.length` it calls `handleComplete`,
which reads the clock again (`nowComplete`). -/
def handleSplitFlow (raceId : String) (p : Person) (raceCreatedBy : Option String)
    (u : Option AuthUser) (st : RaceState) (nowSplit nowComplete : ℚ) :
    Option (RaceState × Option RaceResult) :=
  match handleSplit st nowSplit with
  | none => none
  | some st2 =>
    if st2.currentDisciplineIndex ≥ DISCIPLINES.length then
      some (st2, some (handleComplete raceId p raceCreatedBy u st.startTime st2.splits nowComplete))
    else some (st2, none)

/-- `isComplete` (part_006 line 210). -/
def raceIsComplete (st : RaceState) : Bool :=
  st.currentDisciplineIndex ≥ DISCIPLINES.length

/-- Whether the Take Split button is rendered (part_006 line 268):
`!isComplete && canModify`. -/
def splitButtonShown (st : RaceState) (canModifyRace : Bool) : Bool :=
  !raceIsComplete st && canModifyRace

/-! ## Active race synchronizer (ActiveRacesManager.tsx) -/

/-- `canModify` (ActiveRacesManager.tsx line 135): admins, or the owner when
`createdBy` is truthy and equals the caller identity. -/
def canModify (race : ActiveRace) (u : Option AuthUser) (isAdmin : Bool) : Bool :=
  isAdmin || (truthyS race.createdBy && race.createdBy == currentUserId u)

/-- The early-return condition of `removeRace` (ActiveRacesManager.tsx line
93): `!isAdmin && race?.createdBy && race.createdBy !== currentUserId`. -/
def stopDenied (races : List ActiveRace) (raceId : String) (u : Option AuthUser)
    (isAdmin : Bool) : Bool :=
  let race := races.find? (fun r => r.id == raceId)
  !isAdmin && truthyS (race.bind (·.createdBy)) && !(race.bind (·.createdBy) == currentUserId u)

/-- `removeRace` (ActiveRacesManager.tsx lines 88-100), the engine behind
`stopRace`: deletion is refused only when the caller is not admin, the found
race has a truthy `createdBy`, and that `createdBy` differs from the caller
identity; otherwise `deleteDoc` removes the document from the shared set. -/
def removeRace (races : List ActiveRace) (raceId : String) (u : Option AuthUser)
    (isAdmin : Bool) : List ActiveRace :=
  if stopDenied races raceId u isAdmin then races
  else races.filter (fun r => !(r.id == raceId))

/-- `startRace` (ActiveRacesManager.tsx lines 51-86): `none` (alert, no write)
when the locally-cached view already holds a race for the person; otherwise
the new document written by `setDoc`. -/
def startRace (races : List ActiveRace) (p : Person) (est : Option EstimatedSplits)
    (u : Option AuthUser) (newId : String) (now : ℚ) : Option ActiveRace :=
  if races.any (fun r => r.person.id == p.id) then none
  else
    some { id := newId
           person := p
           startTime := now
           splits := []
           currentDisciplineIndex := 0
           estimatedSplits := est
           createdBy := jsOrUndef (currentUserId u) }

/-- Effect of `startRace` on the shared active-race set: unchanged on the
duplicate alert, extended by the written document otherwise. -/
def startRaceStore (races : List ActiveRace) (p : Person) (est : Option EstimatedSplits)
    (u : Option AuthUser) (newId : String) (now : ℚ) : List ActiveRace :=
  match startRace races p est u newId now with
  | none => races
  | some r => races ++ [r]

/-! ## Leaderboard sorting (part_007) -/

/-- The selectable sort keys. -/
inductive SortKey
  | total
  | treadmill
  | skiErg
  | rowing
deriving DecidableEq, Repr

/-- Sort directions. -/
inductive SortDir
  | asc
  | desc
deriving DecidableEq, Repr

/-- `result.splits.find(s => s.discipline === d)`. -/
def findSplit (r : RaceResult) (d : Discipline) : Option Split :=
  r.splits.find? (fun s => s.discipline == d)

/-- `split?.time || Infinity`: the sentinel `⊤` models `Infinity`; a split
recorded with time `0` is falsy and also yields the sentinel. -/
def splitSortValue : Option Split → WithTop ℚ
  | some s => if s.time = 0 then ⊤ else (s.time : WithTop ℚ)
  | none => ⊤

/-- The comparison value `sortedResults` extracts for a result under a sort
key (part_007 lines 181-209). -/
def sortValue (r : RaceResult) (k : SortKey) : WithTop ℚ :=
  match k with
  | .total => (r.totalTime : WithTop ℚ)
  | .treadmill => splitSortValue (findSplit r .treadmill)
  | .skiErg => splitSortValue (findSplit r .skiErg)
  | .rowing => splitSortValue (findSplit r .rowing)

/-- The stable-sort order induced by the numeric comparator of part_007 lines
211-215: ascending keeps `a` before `b` unless `aValue − bValue > 0`,
descending unless `bValue − aValue > 0`.  `Infinity − Infinity` is `NaN`,
which the engine treats as "no reordering", i.e. a tie — exactly `⊤ ≤ ⊤`. -/
def sortLE (k : SortKey) (dir : SortDir) (a b : RaceResult) : Bool :=
  match dir with
  | .asc => decide (sortValue a k ≤ sortValue b k)
  | .desc => decide (sortValue b k ≤ sortValue a k)

/-- `sortedResults` (part_007 lines 181-219): the stable sort of the combined
results by the selected key and direction. -/
def sortedResults (rs : List RaceResult) (k : SortKey) (dir : SortDir) : List RaceResult :=
  rs.mergeSort (sortLE k dir)

/-- `handleSort` (part_007 lines 221-228): reselecting the active key toggles
the direction, selecting a new key resets to ascending. -/
def handleSort (cur : SortKey × SortDir) (k : SortKey) : SortKey × SortDir :=
  if cur.1 = k then (k, if cur.2 = SortDir.asc then SortDir.desc else SortDir.asc)
  else (k, SortDir.asc)

/-! ## Durable storage and Excel import (part_001, part_004) -/

/-- The durable store as a subscribed client sees it. -/
structure Store where
  persons : List Person
  results : List RaceResult
deriving Repr

/-- `storage.getPerson`: lookup by document id in the persons cache. -/
def getPerson (st : Store) (pid : String) : Option Person :=
  st.persons.find? (fun p => p.id == pid)

/-- `storage.createPerson` (part_001 lines 71-88): `addDoc` writes the data
under a store-generated document id (`docId`), while the returned `Person`
carries a locally generated `crypto.randomUUID()` (`localId`). -/
def createPerson (st : Store) (name : String) (createdBy : Option String)
    (docId localId : String) (nowIso : String) : Person × Store :=
  let cb := if truthyS createdBy then createdBy else none
  let stored : Person := { id := docId, name := name, createdAt := nowIso, createdBy := cb }
  let returned : Person := { id := localId, name := name, createdAt := nowIso, createdBy := cb }
  (returned, { st with persons := st.persons ++ [stored] })

/-- One Results-sheet row of the Excel interchange format, with `undefined`
for absent cells. -/
structure ExcelRow where
  resultId : Option String := none
  personName : Option String := none
  personId : Option String := none
  treadmillMs : Option ℚ := none
  skiErgMs : Option ℚ := none
  rowingMs : Option ℚ := none
  totalMs : Option ℚ := none
  completedAt : Option ℚ := none
deriving Repr

/-- The split reconstructed from one `(ms)` column when the cell is truthy and
positive (part_004 lines 120-142). -/
def rowSplit (d : Discipline) (cell : Option ℚ) (nowClock : ℚ) : List Split :=
  if truthyQ cell && decide (0 < cell.getD 0) then
    [{ discipline := d, time := cell.getD 0, timestamp := nowClock }]
  else []

/-- Import of one result row (part_004 lines 109-169): skip on a falsy result
id or person name, skip duplicates, otherwise resolve the person — the given
`Person ID` when truthy, else a lookup by name, else `storage.createPerson` —
and save the reconstructed result under the resolved person id.  `docId` and
`localId` are the ids `createPerson` would consume. -/
def importResultRow (st : Store) (row : ExcelRow) (docId localId : String)
    (nowIso : String) (nowClock : ℚ) : Store :=
  if !truthyS row.resultId || !truthyS row.personName then st
  else if st.results.any (fun r => some r.id == row.resultId) then st
  else
    let splits := rowSplit .treadmill row.treadmillMs nowClock
      ++ rowSplit .skiErg row.skiErgMs nowClock
      ++ rowSplit .rowing row.rowingMs nowClock
    let resolved : String × Store :=
      if truthyS row.personId then (row.personId.getD "", st)
      else
        match st.persons.find? (fun p => some p.name == row.personName) with
        | some p => (p.id, st)
        | none =>
          let c := createPerson st (row.personName.getD "") none docId localId nowIso
          (c.1.id, c.2)
    let res : RaceResult :=
      { id := row.resultId.getD ""
        personId := resolved.1
        personName := row.personName.getD ""
        splits := splits
        totalTime := if truthyQ row.totalMs then row.totalMs.getD 0 else 0
        completedAt := match row.completedAt with | some t => t | none => nowClock }
    { resolved.2 with results := resolved.2.results ++ [res] }

/-! ## Specification-side predicates -/

/-- An optional duration is positive whenever present. -/
def PosOpt (o : Option ℚ) : Prop :=
  ∀ q, o = some q → 0 < q

/-- The spec invariant on `EstimatedSplits`: all stored per-discipline values
are positive durations, `total` is present iff all three disciplines are, and
`total` is their sum when present. -/
def WellFormedEst (e : EstimatedSplits) : Prop :=
  PosOpt e.treadmill ∧ PosOpt e.skiErg ∧ PosOpt e.rowing ∧
  (e.total.isSome ↔ (e.treadmill.isSome ∧ e.skiErg.isSome ∧ e.rowing.isSome)) ∧
  (∀ q, e.total = some q →
    ∃ a b c, e.treadmill = some a ∧ e.skiErg = some b ∧ e.rowing = some c ∧ q = a + b + c)

/-- A submitted field is touched when its discipline is not completed and the
trimmed text is non-blank. -/
def fieldTouched (done : Bool) (txt : JStr) : Prop :=
  done = false ∧ trimJS txt ≠ []

/-- A submitted field text the confirm handler rejects: it fails to parse, or
parses to `0` milliseconds (falsy under the handler's `if (ms)` check). -/
def fieldBad (txt : JStr) : Prop :=
  parseTimeToMs txt = none ∨ parseTimeToMs txt = some 0

/-- Fixture: a finished result that has a skiErg split of 100 ms. -/
def resultWithSki : RaceResult :=
  { id := "has"
    personId := "p1"
    personName := "A"
    splits := [{ discipline := .skiErg, time := 100, timestamp := 0 }]
    totalTime := 100
    completedAt := 0 }

/-- Fixture: a finished result with no skiErg split. -/
def resultNoSki : RaceResult :=
  { id := "miss"
    personId := "p2"
    personName := "B"
    splits := []
    totalTime := 50
    completedAt := 0 }

/-! # Theorems -/

/-- Claim C3: in every non-terminal race state (`currentDisciplineIndex < 3`)
and at every wall-clock time `now`, taking a split appends a split whose time
is `(now − startTime)` minus the sum of the already-recorded split times (the
segment duration), and advances `currentDisciplineIndex` by exactly one. -/
theorem takeSplit_appends_segment_split (st : RaceState) (now : ℚ)
    (h : st.currentDisciplineIndex < 3) :
    ∃ d, DISCIPLINES[st.currentDisciplineIndex]? = some d ∧
      handleSplit st now = some
        { startTime := st.startTime
          splits := st.splits ++
            [{ discipline := d
               time := now - st.startTime - sumSplitTimes st.splits
               timestamp := now }]
          currentDisciplineIndex := st.currentDisciplineIndex + 1 } := by
  obtain ⟨s0, sp, i⟩ := st
  simp only at h ⊢
  interval_cases i
  · exact ⟨.treadmill, rfl, rfl⟩
  · exact ⟨.skiErg, rfl, rfl⟩
  · exact ⟨.rowing, rfl, rfl⟩

/-- Witness for C3: taking the first split of a fresh race at clock 5. -/
theorem takeSplit_appends_segment_split_witness :
    handleSplit { startTime := 0, splits := [], currentDisciplineIndex := 0 } 5 =
      some { startTime := 0
             splits := [{ discipline := .treadmill
                          time := 5 - 0 - sumSplitTimes []
                          timestamp := 5 }]
             currentDisciplineIndex := 0 + 1 } := by
  obtain ⟨d, hd, hs⟩ :=
    takeSplit_appends_segment_split { startTime := 0, splits := [], currentDisciplineIndex := 0 }
      5 (by norm_num)
  have hd2 : d = Discipline.treadmill := by
    simpa [DISCIPLINES] using hd.symm
  rw [hd2] at hs
  exact hs

/-- Claim C9: with `currentDisciplineIndex = 3` the machine is terminal: the
Take Split button is not rendered for any caller, and an invoked `handleSplit`
throws on the `DISCIPLINES` lookup before recording anything, so no split can
be recorded and the race state is unchanged. -/
theorem completed_race_never_accepts_split (st : RaceState) (cm : Bool) (now : ℚ)
    (h : st.currentDisciplineIndex = 3) :
    splitButtonShown st cm = false ∧ handleSplit st now = none := by
  obtain ⟨s0, sp, i⟩ := st
  simp only at h
  subst h
  exact ⟨by simp [splitButtonShown, raceIsComplete, DISCIPLINES], rfl⟩

/-- Witness for C9: a race at index 3 offers no split to a modifying caller
and rejects a split attempt at clock 7. -/
theorem completed_race_never_accepts_split_witness :
    splitButtonShown { startTime := 0, splits := [], currentDisciplineIndex := 3 } true = false ∧
      handleSplit { startTime := 0, splits := [], currentDisciplineIndex := 3 } 7 = none :=
  completed_race_never_accepts_split
    { startTime := 0, splits := [], currentDisciplineIndex := 3 } true 7 rfl

/-- Claim C1, amended: on the completing split the emitted result's
`totalTime` is the *second* clock reading (taken inside `handleComplete`)
minus `startTime`, while the sum of the three stored split times telescopes to
the *first* clock reading (taken inside `handleSplit`) minus `startTime`; the
two agree exactly when both `Date.now()` calls return the same value, which
the code does not enforce. -/
theorem completion_total_is_second_clock_reading
    (raceId : String) (p : Person) (rcb : Option String) (u : Option AuthUser)
    (st : RaceState) (now1 now2 : ℚ) (h : st.currentDisciplineIndex = 2) :
    ∃ st2 res, handleSplitFlow raceId p rcb u st now1 now2 = some (st2, some res) ∧
      res.totalTime = now2 - st.startTime ∧
      sumSplitTimes res.splits = now1 - st.startTime ∧
      (now2 = now1 → res.totalTime = sumSplitTimes res.splits) := by
  obtain ⟨s0, sp, i⟩ := st
  simp only at h ⊢
  subst h
  have hsum : sumSplitTimes
      (sp ++ [{ discipline := .rowing, time := now1 - s0 - sumSplitTimes sp, timestamp := now1 }])
      = now1 - s0 := by
    simp [sumSplitTimes]
  have hsf : handleSplitFlow raceId p rcb u { startTime := s0, splits := sp, currentDisciplineIndex := 2 } now1 now2 =
      some ({ startTime := s0
              splits := sp ++ [{ discipline := .rowing, time := now1 - s0 - sumSplitTimes sp, timestamp := now1 }]
              currentDisciplineIndex := 3 },
        some { id := raceId
               personId := p.id
               personName := p.name
               splits := sp ++ [{ discipline := .rowing, time := now1 - s0 - sumSplitTimes sp, timestamp := now1 }]
               totalTime := now2 - s0
               completedAt := now2
               createdBy := jsOrUndef (jsOrS rcb (currentUserId u)) }) := rfl
  refine ⟨_, _, hsf, rfl, hsum, fun he => ?_⟩
  show now2 - s0 = _
  rw [hsum, he]

/-- Witness for C1 (amended): a concrete completion with both clock readings
at 1000. -/
theorem completion_total_is_second_clock_reading_witness :
    ∃ st2 res,
      handleSplitFlow "r1" { id := "p1", name := "P", createdAt := "t" } none none
          { startTime := 0
            splits := [{ discipline := .treadmill, time := 300, timestamp := 300 },
                       { discipline := .skiErg, time := 400, timestamp := 700 }]
            currentDisciplineIndex := 2 } 1000 1000 = some (st2, some res) ∧
        res.totalTime = 1000 -
          ({ startTime := 0
             splits := [{ discipline := .treadmill, time := 300, timestamp := 300 },
                        { discipline := .skiErg, time := 400, timestamp := 700 }]
             currentDisciplineIndex := 2 } : RaceState).startTime ∧
        sumSplitTimes res.splits = 1000 -
          ({ startTime := 0
             splits := [{ discipline := .treadmill, time := 300, timestamp := 300 },
                        { discipline := .skiErg, time := 400, timestamp := 700 }]
             currentDisciplineIndex := 2 } : RaceState).startTime ∧
        ((1000 : ℚ) = 1000 → res.totalTime = sumSplitTimes res.splits) :=
  completion_total_is_second_clock_reading "r1" { id := "p1", name := "P", createdAt := "t" }
    none none
    { startTime := 0
      splits := [{ discipline := .treadmill, time := 300, timestamp := 300 },
                 { discipline := .skiErg, time := 400, timestamp := 700 }]
      currentDisciplineIndex := 2 } 1000 1000 rfl

/-- Counterexample to C1 as stated: when the completing `handleSplit` reads
the clock at 1000 but `handleComplete` reads it at 1001, the emitted result
has `totalTime = 1001` while its three stored splits sum to `1000`. -/
theorem completion_total_counterexample :
    (handleSplitFlow "r1" { id := "p1", name := "P", createdAt := "t" } none none
        { startTime := 0
          splits := [{ discipline := .treadmill, time := 300, timestamp := 300 },
                     { discipline := .skiErg, time := 400, timestamp := 700 }]
          currentDisciplineIndex := 2 } 1000 1001).map
        (fun x => x.2.map fun res => (res.totalTime, sumSplitTimes res.splits))
      = some (some (1001, 1000)) ∧ (1001 : ℚ) ≠ (1000 : ℚ) := by
  refine ⟨?_, by norm_num⟩
  simp only [handleSplitFlow, handleSplit, handleComplete, DISCIPLINES]
  norm_num [sumSplitTimes]

/-- Claim C4, amended: `stopRace` is permitted iff the caller is admin, or the
race's `createdBy` is absent or empty, or it equals the caller identity; this
coincides with the `takeSplit`/`updateEstimates` gate (`canModify`) whenever
`createdBy` is present and nonempty, but a race without a truthy `createdBy`
can be deleted by anyone while `canModify` denies non-admins.  When denied,
the stored active-race set is left unchanged. -/
theorem stopRace_permission (races : List ActiveRace) (raceId : String)
    (u : Option AuthUser) (isAdmin : Bool) :
    (stopDenied races raceId u isAdmin = true → removeRace races raceId u isAdmin = races) ∧
    (stopDenied races raceId u isAdmin = false →
      removeRace races raceId u isAdmin = races.filter (fun r => !(r.id == raceId))) ∧
    (∀ r, races.find? (fun r => r.id == raceId) = some r → truthyS r.createdBy = true →
      (stopDenied races raceId u isAdmin = false ↔ canModify r u isAdmin = true)) := by
  refine ⟨fun hd => by simp [removeRace, hd], fun hd => by simp [removeRace, hd], ?_⟩
  intro r hfind htr
  simp only [stopDenied, canModify, hfind, Option.bind_some]
  cases isAdmin <;> simp [htr]

/-- Witness for C4 (amended): a non-admin, non-owner caller is denied on a
race owned by someone else, and the set is unchanged. -/
theorem stopRace_permission_witness :
    removeRace
      [{ id := "r1"
         person := { id := "p1", name := "P", createdAt := "t" }
         startTime := 0
         splits := []
         currentDisciplineIndex := 0
         estimatedSplits := none
         createdBy := some "bob" }] "r1" (some { email := none, uid := "alice" }) false
      = [{ id := "r1"
           person := { id := "p1", name := "P", createdAt := "t" }
           startTime := 0
           splits := []
           currentDisciplineIndex := 0
           estimatedSplits := none
           createdBy := some "bob" }] :=
  (stopRace_permission
    [{ id := "r1"
       person := { id := "p1", name := "P", createdAt := "t" }
       startTime := 0
       splits := []
       currentDisciplineIndex := 0
       estimatedSplits := none
       createdBy := some "bob" }] "r1" (some { email := none, uid := "alice" }) false).1
    (by decide)

/-- Counterexample to C4 as stated: a race whose `createdBy` is absent cannot
be modified by a non-admin caller (`canModify` is false, so `takeSplit` is
denied), yet `removeRace` deletes it for that same caller — the permission
conditions are not identical. -/
theorem stopRace_permission_counterexample :
    canModify
        { id := "r1"
          person := { id := "p1", name := "P", createdAt := "t" }
          startTime := 0
          splits := []
          currentDisciplineIndex := 0
          estimatedSplits := none
          createdBy := none } (some { email := none, uid := "alice" }) false = false ∧
      removeRace
        [{ id := "r1"
           person := { id := "p1", name := "P", createdAt := "t" }
           startTime := 0
           splits := []
           currentDisciplineIndex := 0
           estimatedSplits := none
           createdBy := none }] "r1" (some { email := none, uid := "alice" }) false = [] := by
  constructor
  · decide
  · simp [removeRace, stopDenied, currentUserId, jsOrS, truthyS]

/-- Claim C6: `startRace` fails (alert, no write, set unchanged) exactly when
the locally-cached view already holds an active race for the person;
otherwise it writes a new ActiveRace with index 0, empty splits, the given
estimates, and the caller identity as `createdBy`. -/
theorem startRace_duplicate_or_create (races : List ActiveRace) (p : Person)
    (est : Option EstimatedSplits) (u : Option AuthUser) (newId : String) (now : ℚ) :
    (startRace races p est u newId now = none ↔ ∃ r ∈ races, r.person.id = p.id) ∧
    (startRace races p est u newId now = none →
      startRaceStore races p est u newId now = races) ∧
    (∀ r2, startRace races p est u newId now = some r2 →
      startRaceStore races p est u newId now = races ++ [r2] ∧
      r2.id = newId ∧ r2.person = p ∧ r2.startTime = now ∧ r2.splits = [] ∧
      r2.currentDisciplineIndex = 0 ∧ r2.estimatedSplits = est ∧
      r2.createdBy = jsOrUndef (currentUserId u)) := by
  by_cases hdup : races.any (fun r => r.person.id == p.id) = true
  · refine ⟨?_, fun _ => by simp [startRaceStore, startRace, hdup], ?_⟩
    · simp only [startRace, hdup, if_true, true_iff]
      simpa using hdup
    · intro r2 h2
      simp [startRace, hdup] at h2
  · have hdup2 : races.any (fun r => r.person.id == p.id) = false := by
      simpa using hdup
    have hne : ¬∃ r ∈ races, r.person.id = p.id := by
      rintro ⟨r, hr, hid⟩
      apply hdup
      simp only [List.any_eq_true]
      exact ⟨r, hr, by simpa using hid⟩
    refine ⟨?_, fun hnone => ?_, ?_⟩
    · simp [startRace, hdup2, hne]
    · simp [startRace, hdup2] at hnone
    · intro r2 h2
      simp only [startRace, hdup2, Bool.false_eq_true, if_false, Option.some.injEq] at h2
      subst h2
      refine ⟨by simp [startRaceStore, startRace, hdup2], rfl, rfl, rfl, rfl, rfl, rfl, rfl⟩

/-- Witness for C6: starting a race for a person who is already racing fails,
and starting one for a fresh person creates the document. -/
theorem startRace_duplicate_or_create_witness :
    startRace
      [{ id := "r1"
         person := { id := "p1", name := "P", createdAt := "t" }
         startTime := 0
         splits := []
         currentDisciplineIndex := 0
         estimatedSplits := none
         createdBy := none }] { id := "p1", name := "P", createdAt := "t" } none
      (some { email := some "alice", uid := "u1" }) "r2" 50 = none :=
  (startRace_duplicate_or_create
    [{ id := "r1"
       person := { id := "p1", name := "P", createdAt := "t" }
       startTime := 0
       splits := []
       currentDisciplineIndex := 0
       estimatedSplits := none
       createdBy := none }] { id := "p1", name := "P", createdAt := "t" } none
    (some { email := some "alice", uid := "u1" }) "r2" 50).1.mpr
    ⟨{ id := "r1"
       person := { id := "p1", name := "P", createdAt := "t" }
       startTime := 0
       splits := []
       currentDisciplineIndex := 0
       estimatedSplits := none
       createdBy := none }, by simp, rfl⟩

/-! ## Estimate reconciler lemmas (C2, C7) -/

/-- A successfully parsed time is non-negative. -/
theorem parseTimeToMs_nonneg (s : JStr) (q : ℚ) (h : parseTimeToMs s = some q) : 0 ≤ q := by
  simp only [parseTimeToMs] at h
  split at h
  · exact absurd h (by simp)
  · split at h
    all_goals try exact absurd h (by simp)
    · split at h
      · split at h
        · exact absurd h (by simp)
        · rename_i hneg
          push_neg at hneg
          obtain ⟨hm, hs⟩ := hneg
          obtain rfl := Option.some.inj h
          have hm2 : (0 : ℚ) ≤ _ := Int.cast_nonneg.mpr hm
          nlinarith [hm2, hs]
      all_goals exact absurd h (by simp)
    · split at h
      · split at h
        · exact absurd h (by simp)
        · rename_i hneg
          push_neg at hneg
          obtain ⟨h1, h2, h3⟩ := hneg
          obtain rfl := Option.some.inj h
          have h1b : (0 : ℚ) ≤ _ := Int.cast_nonneg.mpr h1
          have h2b : (0 : ℚ) ≤ _ := Int.cast_nonneg.mpr h2
          nlinarith [h1b, h2b, h3]
      all_goals exact absurd h (by simp)

/-- The error flag of one confirm field is set exactly on a touched field
whose text fails to parse or parses to zero. -/
theorem confirmField_err_iff (done : Bool) (txt : JStr) (ex : Option ℚ) :
    (confirmField done txt ex).2 = true ↔ (fieldTouched done txt ∧ fieldBad txt) := by
  unfold confirmField fieldTouched fieldBad
  cases done
  · cases htl : trimJS txt with
    | nil => cases htr : truthyQ ex <;> simp [htl, htr]
    | cons c cs =>
      cases hp : parseTimeToMs txt with
      | none => simp [hp, htl]
      | some ms =>
        by_cases hms : ms = 0
        · subst hms
          simp [hp, htl]
        · simp [hp, htl, hms]
  · simp

/-- An error-free confirm field applies the parsed value of a touched text. -/
theorem confirmField_ok_applied (done : Bool) (txt : JStr) (ex : Option ℚ)
    (h : (confirmField done txt ex).2 = false) (ht : fieldTouched done txt) :
    (confirmField done txt ex).1 = parseTimeToMs txt := by
  obtain ⟨hd, htl⟩ := ht
  subst hd
  unfold confirmField at h ⊢
  cases htl2 : trimJS txt with
  | nil => first
    | exact absurd rfl htl
    | exact absurd htl2 htl
  | cons c cs =>
    cases hp : parseTimeToMs txt with
    | none => simp [hp, htl2] at h
    | some ms =>
      by_cases hms : ms = 0
      · subst hms
        simp [hp, htl2] at h
      · simp [hp, htl2, hms]

/-- An error-free confirm field preserves positivity of the stored value. -/
theorem confirmField_ok_pos (done : Bool) (txt : JStr) (ex : Option ℚ)
    (h : (confirmField done txt ex).2 = false) (hex : PosOpt ex) :
    PosOpt (confirmField done txt ex).1 := by
  unfold confirmField at h ⊢
  cases done
  · cases htl : trimJS txt with
    | nil =>
      cases htr : truthyQ ex
      · simpa [htl, htr] using hex
      · intro q hq
        simp [htl, htr] at hq
    | cons c cs =>
      cases hp : parseTimeToMs txt with
      | none => simp [hp, htl] at h
      | some ms =>
        by_cases hms : ms = 0
        · subst hms
          simp [hp, htl] at h
        · intro q hq
          simp [hp, htl, hms] at hq
          subst hq
          exact lt_of_le_of_ne (parseTimeToMs_nonneg txt _ hp) (Ne.symm hms)
  · simpa using hex

/-- Positivity makes JavaScript truthiness coincide with presence. -/
theorem truthy_eq_isSome_of_pos (o : Option ℚ) (h : PosOpt o) : truthyQ o = o.isSome := by
  cases o with
  | none => rfl
  | some q =>
    have := (h q rfl).ne'
    simp [truthyQ, this]

/-- A positive optional value that is not truthy is absent. -/
theorem posOpt_not_truthy_none (o : Option ℚ) (h : PosOpt o) (ht : truthyQ o = false) :
    o = none := by
  cases o with
  | none => rfl
  | some q =>
    simp [truthyQ] at ht
    exact absurd (ht ▸ h q rfl) (lt_irrefl 0)

/-- The JavaScript spread keeps a field present on either side. -/
theorem posOpt_orElse (a b : Option ℚ) (ha : PosOpt a) (hb : PosOpt b) :
    PosOpt (a.orElse fun _ => b) := by
  cases a with
  | none => simpa [Option.orElse] using hb
  | some q => simpa [Option.orElse] using ha

/-- An estimates object carrying all three positive values and the recomputed
total is well-formed. -/
theorem wf_mk_total (x y z : Option ℚ) (hx : PosOpt x) (hy : PosOpt y) (hz : PosOpt z)
    (ht : (truthyQ x && truthyQ y && truthyQ z) = true) :
    WellFormedEst { treadmill := x, skiErg := y, rowing := z
                    total := some (x.getD 0 + y.getD 0 + z.getD 0) } := by
  rw [truthy_eq_isSome_of_pos x hx, truthy_eq_isSome_of_pos y hy,
    truthy_eq_isSome_of_pos z hz] at ht
  simp only [Bool.and_eq_true] at ht
  obtain ⟨⟨hxs, hys⟩, hzs⟩ := ht
  obtain ⟨a, rfl⟩ := Option.isSome_iff_exists.mp hxs
  obtain ⟨b, rfl⟩ := Option.isSome_iff_exists.mp hys
  obtain ⟨c, rfl⟩ := Option.isSome_iff_exists.mp hzs
  exact ⟨hx, hy, hz, by simp, fun q hq => ⟨a, b, c, rfl, rfl, rfl, by simpa using hq.symm⟩⟩

/-- An estimates object with positive values, not all three truthy, and no
total is well-formed. -/
theorem wf_mk_none (x y z : Option ℚ) (hx : PosOpt x) (hy : PosOpt y) (hz : PosOpt z)
    (ht : (truthyQ x && truthyQ y && truthyQ z) = false) :
    WellFormedEst { treadmill := x, skiErg := y, rowing := z, total := none } := by
  refine ⟨hx, hy, hz, ?_, fun q hq => absurd hq (by simp)⟩
  simp only [Option.isSome_none, Bool.false_eq_true, false_iff]
  rintro ⟨hxs, hys, hzs⟩
  rw [truthy_eq_isSome_of_pos x hx, truthy_eq_isSome_of_pos y hy,
    truthy_eq_isSome_of_pos z hz] at ht
  rw [hxs, hys, hzs] at ht
  simp at ht

/-- A confirmed estimate edit produces a well-formed estimates object. -/
theorem handleConfirm_wf (old : EstimatedSplits) (tTxt sTxt rTxt : JStr)
    (completed : List Split) (upd : EstimatedSplits) (hold : WellFormedEst old)
    (hc : handleConfirm old tTxt sTxt rTxt completed = some upd) :
    WellFormedEst upd := by
  obtain ⟨hT, hS, hR, hIff, hSum⟩ := hold
  simp only [handleConfirm] at hc
  by_cases herr :
      ((confirmField (disciplineDone completed .treadmill) tTxt old.treadmill).2
        || (confirmField (disciplineDone completed .skiErg) sTxt old.skiErg).2
        || (confirmField (disciplineDone completed .rowing) rTxt old.rowing).2) = true
  · rw [if_pos herr] at hc
    exact absurd hc (by simp)
  · have h2 := Bool.not_eq_true _ ▸ herr
    simp only [Bool.or_eq_true, not_or, Bool.not_eq_true] at herr
    obtain ⟨⟨het, hes⟩, her⟩ := herr
    rw [het, hes, her] at hc
    simp only [Bool.or_self, Bool.false_eq_true, if_false] at hc
    have posT := confirmField_ok_pos _ tTxt _ het hT
    have posS := confirmField_ok_pos _ sTxt _ hes hS
    have posR := confirmField_ok_pos _ rTxt _ her hR
    by_cases hall :
        (truthyQ (confirmField (disciplineDone completed .treadmill) tTxt old.treadmill).1
          && truthyQ (confirmField (disciplineDone completed .skiErg) sTxt old.skiErg).1
          && truthyQ (confirmField (disciplineDone completed .rowing) rTxt old.rowing).1) = true
    · rw [if_pos hall] at hc
      obtain rfl := Option.some.inj hc
      exact wf_mk_total _ _ _ posT posS posR hall
    · have hall2 : (truthyQ (confirmField (disciplineDone completed .treadmill) tTxt old.treadmill).1
          && truthyQ (confirmField (disciplineDone completed .skiErg) sTxt old.skiErg).1
          && truthyQ (confirmField (disciplineDone completed .rowing) rTxt old.rowing).1) = false :=
        Bool.not_eq_true _ ▸ hall
      rw [hall2] at hc
      simp only [Bool.false_eq_true, if_false] at hc
      by_cases htot : truthyQ old.total = true
      · rw [if_pos htot] at hc
        obtain rfl := Option.some.inj hc
        exact wf_mk_none _ _ _ posT posS posR hall2
      · have htot2 : truthyQ old.total = false := Bool.not_eq_true _ ▸ htot
        rw [htot2] at hc
        simp only [Bool.false_eq_true, if_false] at hc
        obtain rfl := Option.some.inj hc
        have hON : old.total = none := by
          cases hcase : old.total with
          | none => rfl
          | some T =>
            obtain ⟨a, b, c, ha, hb, hcq, hsum⟩ := hSum T hcase
            have : (0 : ℚ) < T := by
              have := hT a ha
              have := hS b hb
              have := hR c hcq
              linarith [hsum]
            rw [hcase] at htot2
            simp [truthyQ] at htot2
            exact absurd (htot2 ▸ this) (lt_irrefl 0)
        rw [hON]
        exact wf_mk_none _ _ _ posT posS posR hall2

/-- Merging a well-formed update into well-formed stored estimates keeps the
object well-formed. -/
theorem mergeConfirm_wf (old upd : EstimatedSplits) (hold : WellFormedEst old)
    (hupd : WellFormedEst upd) : WellFormedEst (handleEstimateConfirm old upd) := by
  obtain ⟨hoT, hoS, hoR, hoIff, hoSum⟩ := hold
  obtain ⟨huT, huS, huR, huIff, huSum⟩ := hupd
  have posT := posOpt_orElse _ _ huT hoT
  have posS := posOpt_orElse _ _ huS hoS
  have posR := posOpt_orElse _ _ huR hoR
  simp only [handleEstimateConfirm, mergeEstimates]
  by_cases hall :
      (truthyQ (upd.treadmill.orElse fun _ => old.treadmill)
        && truthyQ (upd.skiErg.orElse fun _ => old.skiErg)
        && truthyQ (upd.rowing.orElse fun _ => old.rowing)) = true
  · rw [if_pos hall]
    exact wf_mk_total _ _ _ posT posS posR hall
  · have hall2 : (truthyQ (upd.treadmill.orElse fun _ => old.treadmill)
        && truthyQ (upd.skiErg.orElse fun _ => old.skiErg)
        && truthyQ (upd.rowing.orElse fun _ => old.rowing)) = false :=
      Bool.not_eq_true _ ▸ hall
    rw [hall2]
    simp only [Bool.false_eq_true, if_false]
    have htotnone : (upd.total.orElse fun _ => old.total) = none := by
      have hcases : (upd.treadmill.orElse fun _ => old.treadmill) = none
          ∨ (upd.skiErg.orElse fun _ => old.skiErg) = none
          ∨ (upd.rowing.orElse fun _ => old.rowing) = none := by
        rcases Bool.and_eq_false_iff.mp hall2 with h | h
        · rcases Bool.and_eq_false_iff.mp h with h2 | h2
          · exact Or.inl (posOpt_not_truthy_none _ posT h2)
          · exact Or.inr (Or.inl (posOpt_not_truthy_none _ posS h2))
        · exact Or.inr (Or.inr (posOpt_not_truthy_none _ posR h))
      have hut : upd.total = none := by
        cases hcase : upd.total with
        | none => rfl
        | some T =>
          have hsome : upd.total.isSome := by simp [hcase]
          obtain ⟨hts, hss, hrs⟩ := huIff.mp hsome
          rcases hcases with h | h | h
          · cases hu : upd.treadmill with
            | none => rw [hu] at hts; simp at hts
            | some v => rw [hu] at h; simp [Option.orElse] at h
          · cases hu : upd.skiErg with
            | none => rw [hu] at hss; simp at hss
            | some v => rw [hu] at h; simp [Option.orElse] at h
          · cases hu : upd.rowing with
            | none => rw [hu] at hrs; simp at hrs
            | some v => rw [hu] at h; simp [Option.orElse] at h
      have hot : old.total = none := by
        cases hcase : old.total with
        | none => rfl
        | some T =>
          have hsome : old.total.isSome := by simp [hcase]
          obtain ⟨hts, hss, hrs⟩ := hoIff.mp hsome
          rcases hcases with h | h | h
          · cases hu : upd.treadmill with
            | none =>
              rw [hu] at h
              simp only [Option.orElse] at h
              cases ho : old.treadmill with
              | none => rw [ho] at hts; simp at hts
              | some v => rw [ho] at h; simp at h
            | some v => rw [hu] at h; simp [Option.orElse] at h
          · cases hu : upd.skiErg with
            | none =>
              rw [hu] at h
              simp only [Option.orElse] at h
              cases ho : old.skiErg with
              | none => rw [ho] at hss; simp at hss
              | some v => rw [ho] at h; simp at h
            | some v => rw [hu] at h; simp [Option.orElse] at h
          · cases hu : upd.rowing with
            | none =>
              rw [hu] at h
              simp only [Option.orElse] at h
              cases ho : old.rowing with
              | none => rw [ho] at hrs; simp at hrs
              | some v => rw [ho] at h; simp at h
            | some v => rw [hu] at h; simp [Option.orElse] at h
      rw [hut, hot]
      rfl
    rw [htotnone]
    exact wf_mk_none _ _ _ posT posS posR hall2

/-- Claim C2: after every estimate edit — the confirm of the estimate form and
the subsequent merge with the previously stored estimates — the resulting
object has `total` present iff all three disciplines are present, with
`total` equal to their sum, provided the stored estimates already satisfied
that invariant (which the initial, estimate-form-produced object does). -/
theorem estimate_edit_wellformed (old : EstimatedSplits) (tTxt sTxt rTxt : JStr)
    (completed : List Split) (upd : EstimatedSplits) (hold : WellFormedEst old)
    (hc : handleConfirm old tTxt sTxt rTxt completed = some upd) :
    WellFormedEst upd ∧ WellFormedEst (handleEstimateConfirm old upd) := by
  have h1 := handleConfirm_wf old tTxt sTxt rTxt completed upd hold hc
  exact ⟨h1, mergeConfirm_wf old upd hold h1⟩

/-! ## Digit-string lemmas (C8 and concrete parsing) -/

/-- A digit character is not whitespace, a colon, a sign, or a dot. -/
theorem digit_char_ne (c : Char) (h : c.isDigit = true) :
    isWSChar c = false ∧ ¬(c = ':') ∧ ¬(c = '-') ∧ ¬(c = '+') ∧ ¬(c = '.') := by
  have h1 : ¬(c = ' ') := fun e => absurd h (by subst e; decide)
  have h2 : ¬(c = '\t') := fun e => absurd h (by subst e; decide)
  have h3 : ¬(c = '\n') := fun e => absurd h (by subst e; decide)
  have h4 : ¬(c = '\r') := fun e => absurd h (by subst e; decide)
  refine ⟨by simp [isWSChar, h1, h2, h3, h4], ?_, ?_, ?_, ?_⟩
  · exact fun e => absurd h (by subst e; decide)
  · exact fun e => absurd h (by subst e; decide)
  · exact fun e => absurd h (by subst e; decide)
  · exact fun e => absurd h (by subst e; decide)

/-- `digitChar` of a digit value is a digit character with that value. -/
theorem digitChar_spec (n : ℕ) (h : n < 10) :
    (digitChar n).isDigit = true ∧ (digitChar n).toNat - 48 = n := by
  interval_cases n <;> exact ⟨by decide, by decide⟩

/-- `natDigits` is a nonempty string of digit characters. -/
theorem natDigits_digits (n : ℕ) :
    natDigits n ≠ [] ∧ ∀ c ∈ natDigits n, c.isDigit = true := by
  induction n using Nat.strong_induction_on with
  | _ n ih =>
    rw [natDigits]
    split
    · rename_i h
      refine ⟨by simp, ?_⟩
      intro c hc
      simp only [List.mem_singleton] at hc
      subst hc
      exact (digitChar_spec n h).1
    · rename_i h
      push_neg at h
      have ih2 := ih (n / 10) (Nat.div_lt_self (by omega) (by omega))
      refine ⟨by simp, ?_⟩
      intro c hc
      rcases List.mem_append.mp hc with hc | hc
      · exact ih2.2 c hc
      · simp only [List.mem_singleton] at hc
        subst hc
        exact (digitChar_spec _ (Nat.mod_lt _ (by omega))).1

/-- Appending one character multiplies the digits value by ten. -/
theorem digitsVal_append1 (ds : JStr) (c : Char) :
    digitsVal (ds ++ [c]) = 10 * digitsVal ds + (c.toNat - 48) := by
  simp [digitsVal, List.foldl_append]

/-- `digitsVal` inverts `natDigits`. -/
theorem digitsVal_natDigits (n : ℕ) : digitsVal (natDigits n) = n := by
  induction n using Nat.strong_induction_on with
  | _ n ih =>
    rw [natDigits]
    split
    · rename_i h
      have := (digitChar_spec n h).2
      simp [digitsVal, this]
    · rename_i h
      push_neg at h
      rw [digitsVal_append1, ih (n / 10) (Nat.div_lt_self (by omega) (by omega))]
      have := (digitChar_spec (n % 10) (Nat.mod_lt _ (by omega))).2
      omega

/-- A leading zero does not change the digits value. -/
theorem digitsVal_cons_zero (t : JStr) : digitsVal ('0' :: t) = digitsVal t := by
  have h : 10 * 0 + ('0'.toNat - 48) = 0 := by decide
  simp [digitsVal, h]

/-- Leading zero padding does not change the digits value. -/
theorem digitsVal_replicate_zeros (k : ℕ) (s : JStr) :
    digitsVal (List.replicate k '0' ++ s) = digitsVal s := by
  induction k with
  | zero => simp
  | succ k ih =>
    rw [List.replicate_succ, List.cons_append, digitsVal_cons_zero, ih]

/-- `pad2` preserves the digits value. -/
theorem digitsVal_pad2 (s : JStr) : digitsVal (pad2 s) = digitsVal s :=
  digitsVal_replicate_zeros _ _

/-- `pad2` output is nonempty. -/
theorem pad2_ne_nil (s : JStr) : pad2 s ≠ [] := by
  cases s with
  | nil => decide
  | cons c cs => simp [pad2]

/-- `pad2` preserves digit-ness. -/
theorem pad2_digits (s : JStr) (h : ∀ c ∈ s, c.isDigit = true) :
    ∀ c ∈ pad2 s, c.isDigit = true := by
  intro c hc
  rcases List.mem_append.mp hc with hc | hc
  · rw [List.eq_of_mem_replicate hc]
    decide
  · exact h c hc

/-- `takeDigits` splits off exactly a leading digit run. -/
theorem takeDigits_all (xs ys : JStr) (hx : ∀ c ∈ xs, c.isDigit = true)
    (hy : ∀ c, ys.head? = some c → c.isDigit = false) :
    takeDigits (xs ++ ys) = (xs, ys) := by
  induction xs with
  | nil =>
    cases ys with
    | nil => rfl
    | cons c cs =>
      have := hy c rfl
      simp [takeDigits, this]
  | cons x xs ih =>
    have hxd := hx x (by simp)
    have ih2 := ih (fun c hc => hx c (by simp [hc]))
    simp [takeDigits, hxd, ih2]

/-- `dropWhile` of a whitespace-free string is the string. -/
theorem dropWhile_no_ws (xs : JStr) (h : ∀ c ∈ xs, isWSChar c = false) :
    xs.dropWhile isWSChar = xs := by
  cases xs with
  | nil => rfl
  | cons c cs => simp [List.dropWhile_cons, h c (by simp)]

/-- `trim` of a whitespace-free string is the string. -/
theorem trimJS_no_ws (xs : JStr) (h : ∀ c ∈ xs, isWSChar c = false) : trimJS xs = xs := by
  unfold trimJS
  rw [dropWhile_no_ws xs h, dropWhile_no_ws _ (fun c hc => h c (List.mem_reverse.mp hc)),
    List.reverse_reverse]

/-- `parseInt` of a nonempty digit string is its value. -/
theorem parseIntJS_digits (ds : JStr) (hne : ds ≠ []) (hd : ∀ c ∈ ds, c.isDigit = true) :
    parseIntJS ds = some (digitsVal ds : ℤ) := by
  cases ds with
  | nil => exact absurd rfl hne
  | cons c cs =>
    have hcd := hd c (by simp)
    obtain ⟨hws, _, hdash, hplus, _⟩ := digit_char_ne c hcd
    have hdrop : (c :: cs).dropWhile isWSChar = c :: cs := by
      simp [List.dropWhile_cons, hws]
    have htd : takeDigits (c :: cs) = (c :: cs, []) := by
      simpa using takeDigits_all (c :: cs) [] hd (by simp)
    simp only [parseIntJS, hdrop, hdash, hplus, if_false, htd]
    simp

/-- `parseFloat` of a nonempty digit string is its value. -/
theorem parseFloatJS_digits (ds : JStr) (hne : ds ≠ []) (hd : ∀ c ∈ ds, c.isDigit = true) :
    parseFloatJS ds = some ((digitsVal ds : ℕ) : ℚ) := by
  cases ds with
  | nil => exact absurd rfl hne
  | cons c cs =>
    have hcd := hd c (by simp)
    obtain ⟨hws, _, hdash, hplus, _⟩ := digit_char_ne c hcd
    have hdrop : (c :: cs).dropWhile isWSChar = c :: cs := by
      simp [List.dropWhile_cons, hws]
    have htd : takeDigits (c :: cs) = (c :: cs, []) := by
      simpa using takeDigits_all (c :: cs) [] hd (by simp)
    simp only [parseFloatJS, hdrop, hdash, hplus, if_false, htd]
    norm_num [digitsVal]

/-- `split(':')` of a colon-free string is one part. -/
theorem splitCols_no_colon (xs : JStr) (h : ∀ c ∈ xs, ¬(c = ':')) : splitCols xs = [xs] := by
  induction xs with
  | nil => rfl
  | cons c cs ih =>
    have hc := h c (by simp)
    have ih2 := ih (fun d hd => h d (by simp [hd]))
    simp [splitCols, hc, ih2]

/-- `split(':')` pulls off a colon-free head part. -/
theorem splitCols_append (xs ys : JStr) (h : ∀ c ∈ xs, ¬(c = ':')) :
    splitCols (xs ++ ':' :: ys) = xs :: splitCols ys := by
  induction xs with
  | nil => simp [splitCols]
  | cons c cs ih =>
    have hc := h c (by simp)
    have ih2 := ih (fun d hd => h d (by simp [hd]))
    simp [splitCols, hc, ih2, List.append_eq]

/-- `parseTimeToMs` on a two-part all-digit string. -/
theorem parseTimeToMs_two_digit_parts (a b : JStr) (ha : a ≠ [])
    (had : ∀ c ∈ a, c.isDigit = true) (hb : b ≠ []) (hbd : ∀ c ∈ b, c.isDigit = true) :
    parseTimeToMs (a ++ ':' :: b) =
      some (((digitsVal a : ℚ) * 60 + (digitsVal b : ℚ)) * 1000) := by
  have hws : ∀ c ∈ a ++ ':' :: b, isWSChar c = false := by
    intro c hc
    rcases List.mem_append.mp hc with hc | hc
    · exact (digit_char_ne c (had c hc)).1
    · rcases List.mem_cons.mp hc with rfl | hc
      · decide
      · exact (digit_char_ne c (hbd c hc)).1
  have htrim := trimJS_no_ws _ hws
  have hie : (a ++ ':' :: b).isEmpty = false := by cases a <;> simp
  have hsc : splitCols (a ++ ':' :: b) = [a, b] := by
    rw [splitCols_append a b (fun c hc => (digit_char_ne c (had c hc)).2.1),
      splitCols_no_colon b (fun c hc => (digit_char_ne c (hbd c hc)).2.1)]
  simp only [parseTimeToMs, htrim, hie, Bool.false_eq_true, if_false, hsc, List.map_cons,
    List.map_nil, trimJS_no_ws a (fun c hc => (digit_char_ne c (had c hc)).1),
    trimJS_no_ws b (fun c hc => (digit_char_ne c (hbd c hc)).1),
    parseIntJS_digits a ha had, parseFloatJS_digits b hb hbd]
  rw [if_neg (by push_neg; exact ⟨by positivity, by positivity⟩)]
  norm_num

/-- `parseTimeToMs` on a three-part all-digit string. -/
theorem parseTimeToMs_three_digit_parts (a b c : JStr) (ha : a ≠ [])
    (had : ∀ x ∈ a, x.isDigit = true) (hb : b ≠ []) (hbd : ∀ x ∈ b, x.isDigit = true)
    (hc : c ≠ []) (hcd : ∀ x ∈ c, x.isDigit = true) :
    parseTimeToMs (a ++ ':' :: (b ++ ':' :: c)) =
      some (((digitsVal a : ℚ) * 3600 + (digitsVal b : ℚ) * 60 + (digitsVal c : ℚ)) * 1000) := by
  have hws : ∀ x ∈ a ++ ':' :: (b ++ ':' :: c), isWSChar x = false := by
    intro x hx
    rcases List.mem_append.mp hx with hx | hx
    · exact (digit_char_ne x (had x hx)).1
    · rcases List.mem_cons.mp hx with rfl | hx
      · decide
      · rcases List.mem_append.mp hx with hx | hx
        · exact (digit_char_ne x (hbd x hx)).1
        · rcases List.mem_cons.mp hx with rfl | hx
          · decide
          · exact (digit_char_ne x (hcd x hx)).1
  have htrim := trimJS_no_ws _ hws
  have hie : (a ++ ':' :: (b ++ ':' :: c)).isEmpty = false := by cases a <;> simp
  have hsc : splitCols (a ++ ':' :: (b ++ ':' :: c)) = [a, b, c] := by
    rw [splitCols_append a _ (fun x hx => (digit_char_ne x (had x hx)).2.1),
      splitCols_append b c (fun x hx => (digit_char_ne x (hbd x hx)).2.1),
      splitCols_no_colon c (fun x hx => (digit_char_ne x (hcd x hx)).2.1)]
  simp only [parseTimeToMs, htrim, hie, Bool.false_eq_true, if_false, hsc, List.map_cons,
    List.map_nil, trimJS_no_ws a (fun x hx => (digit_char_ne x (had x hx)).1),
    trimJS_no_ws b (fun x hx => (digit_char_ne x (hbd x hx)).1),
    trimJS_no_ws c (fun x hx => (digit_char_ne x (hcd x hx)).1),
    parseIntJS_digits a ha had, parseIntJS_digits b hb hbd, parseFloatJS_digits c hc hcd]
  rw [if_neg (by push_neg; exact ⟨by positivity, by positivity, by positivity⟩)]
  norm_num

/-- Claim C8: formatting a non-negative millisecond duration and parsing it
back yields exactly `1000 · ⌊d/1000⌋`, which is within one display unit
(1000 ms) below `d`. -/
theorem format_parse_roundtrip (d : ℚ) (hd : 0 ≤ d) :
    parseTimeToMs (msToTimeString d) = some (1000 * (⌊d / 1000⌋ : ℚ)) ∧
    0 ≤ d - 1000 * (⌊d / 1000⌋ : ℚ) ∧
    d - 1000 * (⌊d / 1000⌋ : ℚ) < 1000 := by
  have hq : (0 : ℚ) ≤ d / 1000 := div_nonneg hd (by norm_num)
  have hfl : (0 : ℤ) ≤ ⌊d / 1000⌋ := Int.floor_nonneg.mpr hq
  obtain ⟨N, hN⟩ : ∃ N : ℕ, (⌊d / 1000⌋).toNat = N := ⟨_, rfl⟩
  have hNQ : (N : ℚ) = (⌊d / 1000⌋ : ℚ) := by
    rw [← hN]
    exact_mod_cast congrArg (fun z : ℤ => (z : ℚ)) (Int.toNat_of_nonneg hfl)
  refine ⟨?_, ?_, ?_⟩
  · simp only [msToTimeString, hN]
    rw [← hNQ]
    by_cases hh : N / 3600 > 0
    · rw [if_pos hh]
      rw [List.append_assoc, List.cons_append]
      rw [parseTimeToMs_three_digit_parts _ _ _
        (natDigits_digits _).1 (natDigits_digits _).2
        (pad2_ne_nil _) (pad2_digits _ (natDigits_digits _).2)
        (pad2_ne_nil _) (pad2_digits _ (natDigits_digits _).2)]
      rw [digitsVal_natDigits, digitsVal_pad2, digitsVal_natDigits, digitsVal_pad2,
        digitsVal_natDigits]
      congr 1
      have harith : (N / 3600 * 3600 + (N % 3600 / 60 * 60 + N % 60)) * 1000 = 1000 * N := by
        have h1 : N / 3600 * 3600 + (N % 3600 / 60 * 60 + N % 60) = N := by omega
        omega
      have hcast := congrArg (fun n : ℕ => (n : ℚ)) harith
      push_cast at hcast
      linarith [hcast]
    · rw [if_neg hh]
      have h36 : N < 3600 := by omega
      rw [parseTimeToMs_two_digit_parts _ _
        (natDigits_digits _).1 (natDigits_digits _).2
        (pad2_ne_nil _) (pad2_digits _ (natDigits_digits _).2)]
      rw [digitsVal_natDigits, digitsVal_pad2, digitsVal_natDigits]
      congr 1
      have harith : (N % 3600 / 60 * 60 + N % 60) * 1000 = 1000 * N := by
        have h1 : N % 3600 / 60 * 60 + N % 60 = N := by omega
        omega
      have hcast := congrArg (fun n : ℕ => (n : ℚ)) harith
      push_cast at hcast
      linarith [hcast]
  · have h1 := Int.floor_le (d / 1000)
    have hdd : d / 1000 * 1000 = d := by norm_num
    nlinarith [h1, hdd]
  · have h2 := Int.lt_floor_add_one (d / 1000)
    have hdd : d / 1000 * 1000 = d := by norm_num
    nlinarith [h2, hdd]

/-- Witness for C8: the round trip at `d = 90500` ms. -/
theorem format_parse_roundtrip_witness :
    parseTimeToMs (msToTimeString 90500) = some (1000 * (⌊(90500 : ℚ) / 1000⌋ : ℚ)) ∧
    0 ≤ (90500 : ℚ) - 1000 * (⌊(90500 : ℚ) / 1000⌋ : ℚ) ∧
    (90500 : ℚ) - 1000 * (⌊(90500 : ℚ) / 1000⌋ : ℚ) < 1000 :=
  format_parse_roundtrip 90500 (by norm_num)

/-- Evaluation: parsing the literal `"1:00"`. -/
theorem parseTimeToMs_one_minute : parseTimeToMs ['1', ':', '0', '0'] = some 60000 := by
  have h := parseTimeToMs_two_digit_parts ['1'] ['0', '0']
    (by decide) (by decide) (by decide) (by decide)
  rw [show ((['1'] : JStr) ++ ':' :: ['0', '0']) = ['1', ':', '0', '0'] from rfl] at h
  rw [h, show digitsVal ['1'] = 1 from by decide, show digitsVal ['0', '0'] = 0 from by decide]
  norm_num

/-- Evaluation: parsing the literal `"0:00"` succeeds with value `0`. -/
theorem parseTimeToMs_zero : parseTimeToMs ['0', ':', '0', '0'] = some 0 := by
  have h := parseTimeToMs_two_digit_parts ['0'] ['0', '0']
    (by decide) (by decide) (by decide) (by decide)
  rw [show ((['0'] : JStr) ++ ':' :: ['0', '0']) = ['0', ':', '0', '0'] from rfl] at h
  rw [h, show digitsVal ['0'] = 0 from by decide, show digitsVal ['0', '0'] = 0 from by decide]
  norm_num

/-- Evaluation: a blank submitted field neither errors nor applies. -/
theorem confirmField_blank_eval : confirmField false [] none = (none, false) := by decide

/-- Evaluation: submitting `"1:00"` on a fresh field stores 60000 ms. -/
theorem confirmField_one_minute_eval :
    confirmField false ['1', ':', '0', '0'] none = (some 60000, false) := by
  unfold confirmField
  rw [show trimJS ['1', ':', '0', '0'] = ['1', ':', '0', '0'] from by decide]
  simp [parseTimeToMs_one_minute, show (60000 : ℚ) ≠ 0 from by norm_num]

/-- Evaluation: the whole confirm of `"1:00"`, blank, blank on empty existing
estimates. -/
theorem handleConfirm_one_minute_eval :
    handleConfirm {} ['1', ':', '0', '0'] [] [] [] =
      some { treadmill := some 60000 } := by
  simp only [handleConfirm]
  rw [show disciplineDone [] Discipline.treadmill = false from rfl,
    show disciplineDone [] Discipline.skiErg = false from rfl,
    show disciplineDone [] Discipline.rowing = false from rfl,
    confirmField_one_minute_eval, confirmField_blank_eval]
  simp [truthyQ]

/-- Witness for C2: submitting a treadmill estimate of `"1:00"` on empty
stored estimates yields a well-formed object, directly and after the merge. -/
theorem estimate_edit_wellformed_witness :
    WellFormedEst { treadmill := some 60000 } ∧
      WellFormedEst (handleEstimateConfirm {} { treadmill := some 60000 }) :=
  estimate_edit_wellformed {} ['1', ':', '0', '0'] [] [] [] { treadmill := some 60000 }
    (by refine ⟨?_, ?_, ?_, by simp, by simp⟩ <;> intro q hq <;> simp at hq)
    handleConfirm_one_minute_eval

/-- A two-part time string fails to parse exactly when a component is
non-numeric or negative. -/
theorem parseTimeToMs_none_iff2 : ∀ s p0 p1 : JStr, trimJS s ≠ [] →
    (splitCols (trimJS s)).map trimJS = [p0, p1] →
    (parseTimeToMs s = none ↔
      parseIntJS p0 = none ∨ parseFloatJS p1 = none ∨
      (∃ m, parseIntJS p0 = some m ∧ m < 0) ∨ (∃ x, parseFloatJS p1 = some x ∧ x < 0)) := by
  intro s p0 p1 hne hsp
  have hie : (trimJS s).isEmpty = false := by
    cases htr : trimJS s
    · exact absurd htr hne
    · rfl
  simp only [parseTimeToMs, hie, Bool.false_eq_true, if_false, hsp]
  cases hp0 : parseIntJS p0 with
  | none => simp
  | some m =>
    cases hp1 : parseFloatJS p1 with
    | none => simp
    | some x =>
      by_cases hneg : (m < 0 ∨ x < 0)
      · simp [hneg]
      · simp only [not_or] at hneg
        simp [hneg.1, hneg.2]

/-- A three-part time string fails to parse exactly when a component is
non-numeric or negative. -/
theorem parseTimeToMs_none_iff3 : ∀ s p0 p1 p2 : JStr, trimJS s ≠ [] →
    (splitCols (trimJS s)).map trimJS = [p0, p1, p2] →
    (parseTimeToMs s = none ↔
      parseIntJS p0 = none ∨ parseIntJS p1 = none ∨ parseFloatJS p2 = none ∨
      (∃ m, parseIntJS p0 = some m ∧ m < 0) ∨ (∃ m, parseIntJS p1 = some m ∧ m < 0) ∨
      (∃ x, parseFloatJS p2 = some x ∧ x < 0)) := by
  intro s p0 p1 p2 hne hsp
  have hie : (trimJS s).isEmpty = false := by
    cases htr : trimJS s
    · exact absurd htr hne
    · rfl
  simp only [parseTimeToMs, hie, Bool.false_eq_true, if_false, hsp]
  cases hp0 : parseIntJS p0 with
  | none => simp
  | some h0 =>
    cases hp1 : parseIntJS p1 with
    | none => simp
    | some m =>
      cases hp2 : parseFloatJS p2 with
      | none => simp
      | some x =>
        by_cases hneg : (h0 < 0 ∨ m < 0 ∨ x < 0)
        · simp [hneg]
        · simp only [not_or] at hneg
          simp [hneg.1, hneg.2.1, hneg.2.2]

/-- Claim C7, amended: a submitted time string of `MM:SS` or `HH:MM:SS` shape
fails to parse exactly when a component is non-numeric or negative; the
confirm handler rejects the whole edit (applying no field) exactly when some
touched field fails to parse *or parses to zero milliseconds* (the `if (ms)`
truthiness check); when it accepts, every touched field is applied with its
parsed value. -/
theorem confirm_rejects_iff (existing : EstimatedSplits) (tTxt sTxt rTxt : JStr)
    (completed : List Split) :
    (∀ s p0 p1 : JStr, trimJS s ≠ [] →
      (splitCols (trimJS s)).map trimJS = [p0, p1] →
      (parseTimeToMs s = none ↔
        parseIntJS p0 = none ∨ parseFloatJS p1 = none ∨
        (∃ m, parseIntJS p0 = some m ∧ m < 0) ∨ (∃ x, parseFloatJS p1 = some x ∧ x < 0))) ∧
    (∀ s p0 p1 p2 : JStr, trimJS s ≠ [] →
      (splitCols (trimJS s)).map trimJS = [p0, p1, p2] →
      (parseTimeToMs s = none ↔
        parseIntJS p0 = none ∨ parseIntJS p1 = none ∨ parseFloatJS p2 = none ∨
        (∃ m, parseIntJS p0 = some m ∧ m < 0) ∨ (∃ m, parseIntJS p1 = some m ∧ m < 0) ∨
        (∃ x, parseFloatJS p2 = some x ∧ x < 0))) ∧
    (handleConfirm existing tTxt sTxt rTxt completed = none ↔
      ((fieldTouched (disciplineDone completed .treadmill) tTxt ∧ fieldBad tTxt) ∨
       (fieldTouched (disciplineDone completed .skiErg) sTxt ∧ fieldBad sTxt) ∨
       (fieldTouched (disciplineDone completed .rowing) rTxt ∧ fieldBad rTxt))) ∧
    (∀ upd, handleConfirm existing tTxt sTxt rTxt completed = some upd →
      (fieldTouched (disciplineDone completed .treadmill) tTxt →
        upd.treadmill = parseTimeToMs tTxt) ∧
      (fieldTouched (disciplineDone completed .skiErg) sTxt →
        upd.skiErg = parseTimeToMs sTxt) ∧
      (fieldTouched (disciplineDone completed .rowing) rTxt →
        upd.rowing = parseTimeToMs rTxt)) := by
  refine ⟨parseTimeToMs_none_iff2, parseTimeToMs_none_iff3, ?_, ?_⟩
  · simp only [handleConfirm]
    by_cases herr :
        ((confirmField (disciplineDone completed .treadmill) tTxt existing.treadmill).2
          || (confirmField (disciplineDone completed .skiErg) sTxt existing.skiErg).2
          || (confirmField (disciplineDone completed .rowing) rTxt existing.rowing).2) = true
    · rw [if_pos herr]
      simp only [true_iff]
      rcases Bool.or_eq_true_iff.mp herr with h | h
      · rcases Bool.or_eq_true_iff.mp h with h2 | h2
        · exact Or.inl ((confirmField_err_iff _ _ _).mp h2)
        · exact Or.inr (Or.inl ((confirmField_err_iff _ _ _).mp h2))
      · exact Or.inr (Or.inr ((confirmField_err_iff _ _ _).mp h))
    · have herr2 := Bool.not_eq_true _ ▸ herr
      rw [herr2]
      simp only [Bool.false_eq_true, if_false]
      constructor
      · intro h
        exfalso
        revert h
        split_ifs <;> simp
      · intro h
        exfalso
        simp only [Bool.or_eq_true, not_or, Bool.not_eq_true] at herr
        rcases h with h | h | h
        · rw [(confirmField_err_iff _ _ _).mpr h] at herr
          simp at herr
        · rw [(confirmField_err_iff _ _ _).mpr h] at herr
          simp at herr
        · rw [(confirmField_err_iff _ _ _).mpr h] at herr
          simp at herr
  · intro upd hc
    simp only [handleConfirm] at hc
    by_cases herr :
        ((confirmField (disciplineDone completed .treadmill) tTxt existing.treadmill).2
          || (confirmField (disciplineDone completed .skiErg) sTxt existing.skiErg).2
          || (confirmField (disciplineDone completed .rowing) rTxt existing.rowing).2) = true
    · rw [if_pos herr] at hc
      exact absurd hc (by simp)
    · have herr2 := Bool.not_eq_true _ ▸ herr
      rw [herr2] at hc
      simp only [Bool.or_eq_true, not_or, Bool.not_eq_true] at herr
      obtain ⟨⟨het, hes⟩, her⟩ := herr
      simp only [Bool.false_eq_true, if_false] at hc
      have happ :
          upd.treadmill = (confirmField (disciplineDone completed .treadmill) tTxt existing.treadmill).1 ∧
          upd.skiErg = (confirmField (disciplineDone completed .skiErg) sTxt existing.skiErg).1 ∧
          upd.rowing = (confirmField (disciplineDone completed .rowing) rTxt existing.rowing).1 := by
        split_ifs at hc <;> obtain rfl := Option.some.inj hc <;> exact ⟨rfl, rfl, rfl⟩
      refine ⟨fun ht => ?_, fun ht => ?_, fun ht => ?_⟩
      · rw [happ.1, confirmField_ok_applied _ _ _ het ht]
      · rw [happ.2.1, confirmField_ok_applied _ _ _ hes ht]
      · rw [happ.2.2, confirmField_ok_applied _ _ _ her ht]

/-- Counterexample to C7 as stated: `"0:00"` parses (no component is negative
or non-numeric), yet the confirm handler rejects the edit because the parsed
value `0` is falsy. -/
theorem confirm_rejects_counterexample :
    parseTimeToMs ['0', ':', '0', '0'] = some 0 ∧
    handleConfirm {} ['0', ':', '0', '0'] [] [] [] = none := by
  refine ⟨parseTimeToMs_zero, ?_⟩
  have hcf : confirmField false ['0', ':', '0', '0'] none = (none, true) := by
    unfold confirmField
    rw [show trimJS ['0', ':', '0', '0'] = ['0', ':', '0', '0'] from by decide]
    simp [parseTimeToMs_zero]
  simp only [handleConfirm]
  rw [show disciplineDone [] Discipline.treadmill = false from rfl, hcf]
  simp

/-- Witness for C7 (amended): the touched treadmill field of an accepted edit
carries its parsed value. -/
theorem confirm_rejects_iff_witness :
    ({ treadmill := some 60000 } : EstimatedSplits).treadmill =
      parseTimeToMs ['1', ':', '0', '0'] :=
  ((confirm_rejects_iff {} ['1', ':', '0', '0'] [] [] []).2.2.2 _
    handleConfirm_one_minute_eval).1 ⟨rfl, by decide⟩

/-! ## Leaderboard sorting lemmas (C5) -/

/-- The comparator order is transitive. -/
theorem sortLE_trans (k : SortKey) (dir : SortDir) (a b c : RaceResult)
    (h1 : sortLE k dir a b = true) (h2 : sortLE k dir b c = true) : sortLE k dir a c = true := by
  cases dir <;> simp only [sortLE, decide_eq_true_eq] at h1 h2 ⊢
  · exact le_trans h1 h2
  · exact le_trans h2 h1

/-- The comparator order is total. -/
theorem sortLE_total (k : SortKey) (dir : SortDir) (a b : RaceResult) :
    (sortLE k dir a b || sortLE k dir b a) = true := by
  cases dir <;> simp only [sortLE, Bool.or_eq_true, decide_eq_true_eq] <;> exact le_total _ _

/-- Claim C5, amended: under a discipline sort key the missing-split sentinel
is `Infinity`, greater than every real duration, so missing results sort after
all present ones in *ascending* order but before them in *descending* order
(the code reverses the comparator, which also reverses where the sentinel
lands); a zero-time split is falsy and is treated like a missing one. -/
theorem discipline_sort_sentinel (rs : List RaceResult) (k : SortKey) :
    (∀ a b, List.Sublist [a, b] (sortedResults rs k .asc) →
      sortValue a k ≤ sortValue b k) ∧
    (∀ a b, List.Sublist [a, b] (sortedResults rs k .desc) →
      sortValue b k ≤ sortValue a k) ∧
    (∀ a b, List.Sublist [a, b] (sortedResults rs k .asc) → sortValue a k = ⊤ →
      sortValue b k = ⊤) ∧
    (∀ a b, List.Sublist [a, b] (sortedResults rs k .desc) → sortValue b k = ⊤ →
      sortValue a k = ⊤) ∧
    (∀ r d, splitSortValue (findSplit r d) = ⊤ ↔
      (findSplit r d = none ∨ ∃ s0, findSplit r d = some s0 ∧ s0.time = 0)) := by
  have hasc := @List.sorted_mergeSort RaceResult (sortLE k .asc)
    (sortLE_trans k .asc) (sortLE_total k .asc) rs
  have hdesc := @List.sorted_mergeSort RaceResult (sortLE k .desc)
    (sortLE_trans k .desc) (sortLE_total k .desc) rs
  have p1 : ∀ a b, List.Sublist [a, b] (sortedResults rs k .asc) →
      sortValue a k ≤ sortValue b k := by
    intro a b hsub
    have := List.pairwise_iff_forall_sublist.mp hasc hsub
    simpa [sortLE] using this
  have p2 : ∀ a b, List.Sublist [a, b] (sortedResults rs k .desc) →
      sortValue b k ≤ sortValue a k := by
    intro a b hsub
    have := List.pairwise_iff_forall_sublist.mp hdesc hsub
    simpa [sortLE] using this
  refine ⟨p1, p2, ?_, ?_, ?_⟩
  · intro a b hsub htop
    have := p1 a b hsub
    rw [htop] at this
    exact top_le_iff.mp this
  · intro a b hsub htop
    have := p2 a b hsub
    rw [htop] at this
    exact top_le_iff.mp this
  · intro r d
    cases hf : findSplit r d with
    | none => simp [splitSortValue]
    | some s0 =>
      by_cases hz : s0.time = 0
      · simp [splitSortValue, hz]
      · simp only [splitSortValue, hz, if_false]
        constructor
        · intro h
          exact absurd h (WithTop.coe_ne_top)
        · intro h
          rcases h with h | ⟨s1, hs1, hz1⟩
          · exact absurd h (by simp)
          · obtain rfl := Option.some.inj hs1
            exact absurd hz1 hz

unseal List.merge List.mergeSort in
/-- Counterexample to C5 as stated: sorting descending by skiErg places the
result with no skiErg split *before* the result that has one. -/
theorem discipline_sort_sentinel_counterexample :
    sortedResults [resultWithSki, resultNoSki] .skiErg .desc = [resultNoSki, resultWithSki] ∧
    findSplit resultNoSki .skiErg = none ∧
    findSplit resultWithSki .skiErg =
      some { discipline := .skiErg, time := 100, timestamp := 0 } := by
  refine ⟨?_, rfl, rfl⟩
  decide

unseal List.merge List.mergeSort in
/-- Witness for C5 (amended): in the ascending skiErg sort the result with a
split precedes the one without, and their key values are ordered. -/
theorem discipline_sort_sentinel_witness :
    sortValue resultWithSki .skiErg ≤ sortValue resultNoSki .skiErg := by
  have hev : sortedResults [resultWithSki, resultNoSki] .skiErg .asc
      = [resultWithSki, resultNoSki] := by decide
  exact (discipline_sort_sentinel [resultWithSki, resultNoSki] .skiErg).1
    resultWithSki resultNoSki (hev ▸ List.Sublist.refl _)

/-! ## Storage and Excel import (C10) -/

/-- Claim C10: `createPerson` returns a person carrying the locally generated
uuid, not the store-assigned document id; so an Excel result row without a
`Person ID`, whose name is unknown, is imported with a `personId` that matches
no person document in the store. -/
theorem import_created_person_dangling (st : Store) (row : ExcelRow)
    (docId localId nowIso : String) (nowClock : ℚ)
    (h1 : truthyS row.resultId = true) (h2 : truthyS row.personName = true)
    (h3 : st.results.any (fun r => some r.id == row.resultId) = false)
    (h4 : truthyS row.personId = false)
    (h5 : st.persons.find? (fun p => some p.name == row.personName) = none)
    (h6 : localId ≠ docId) (h7 : ∀ p ∈ st.persons, p.id ≠ localId) :
    (createPerson st (row.personName.getD "") none docId localId nowIso).1.id = localId ∧
    (∃ stored, (createPerson st (row.personName.getD "") none docId localId nowIso).2.persons
      = st.persons ++ [stored] ∧ stored.id = docId) ∧
    (∃ res, (importResultRow st row docId localId nowIso nowClock).results
      = st.results ++ [res] ∧ res.personId = localId ∧
      getPerson (importResultRow st row docId localId nowIso nowClock) res.personId = none) := by
  refine ⟨rfl, ⟨_, rfl, rfl⟩, ?_⟩
  have hrow : importResultRow st row docId localId nowIso nowClock =
      { persons := st.persons ++
          [{ id := docId, name := row.personName.getD "", createdAt := nowIso, createdBy := none }]
        results := st.results ++
          [{ id := row.resultId.getD ""
             personId := localId
             personName := row.personName.getD ""
             splits := rowSplit .treadmill row.treadmillMs nowClock
               ++ rowSplit .skiErg row.skiErgMs nowClock
               ++ rowSplit .rowing row.rowingMs nowClock
             totalTime := if truthyQ row.totalMs then row.totalMs.getD 0 else 0
             completedAt := match row.completedAt with | some t => t | none => nowClock }] } := by
    simp only [importResultRow, h1, h2, h3, h4, h5]
    simp [createPerson, truthyS]
  refine ⟨_, by rw [hrow], rfl, ?_⟩
  rw [hrow]
  simp only [getPerson]
  rw [List.find?_eq_none]
  intro p hp
  rcases List.mem_append.mp hp with hp | hp
  · simpa using h7 p hp
  · simp only [List.mem_singleton] at hp
    subst hp
    simpa using fun e => h6 e.symm

/-- Witness for C10: importing the row for an unknown "Alice" with no person
id into an empty store. -/
theorem import_created_person_dangling_witness :
    (createPerson { persons := [], results := [] } ((some "Alice").getD "") none
      "doc1" "uuid1" "t0").1.id = "uuid1" ∧
    (∃ stored, (createPerson { persons := [], results := [] } ((some "Alice").getD "") none
      "doc1" "uuid1" "t0").2.persons = [] ++ [stored] ∧ stored.id = "doc1") ∧
    (∃ res, (importResultRow { persons := [], results := [] }
        { resultId := some "R1", personName := some "Alice" } "doc1" "uuid1" "t0" 5).results
      = [] ++ [res] ∧ res.personId = "uuid1" ∧
      getPerson (importResultRow { persons := [], results := [] }
        { resultId := some "R1", personName := some "Alice" } "doc1" "uuid1" "t0" 5)
        res.personId = none) :=
  import_created_person_dangling { persons := [], results := [] }
    { resultId := some "R1", personName := some "Alice" } "doc1" "uuid1" "t0" 5
    (by decide) (by decide) rfl rfl rfl (by decide) (by intro p hp; simp at hp)

end Ragde
